import Mathlib

/-!
Shallow embedding of the comparison-and-copy engine of `src/file_sync.py`
(classes `FileSyncStats`, `FileInfo`, `SyncState`, functions `should_exclude`,
`scan_drive_fast`, `copy_file_with_retry`, `copy_single_file`, `sync_drives`).

Modelling conventions:
* A filesystem path is its list of components (`PathParts`); relative paths
  are component lists relative to a drive root.
* File sizes and modification times are integers (`st_size` is integral;
  `st_mtime` is modelled at seconds precision, which is what the 2-second
  comparison tolerance in `FileInfo.needs_update` is about).
* Filesystem effects are passed explicitly: a `stat` outcome is a `Bool`
  (`statOk`), the result of reading a file for hashing is an `Option String`
  (`none` models the exception branch of `calculate_hash`), and one copy
  attempt of `copy_file_with_retry` (directory creation + `shutil.copy2` +
  post-copy size comparison) is a `Bool` (`true` iff no exception was raised
  and the re-statted sizes matched).
* Python `set`s of paths are lists used up to membership (`List.insert`,
  `List.contains`).
* The model targets the POSIX branch of the code (`os.name != 'nt'`), where
  the Windows-only hidden-attribute check in `should_exclude` is skipped.
-/

namespace FileSync

/-- A path, as its list of components. -/
abbrev PathParts := List String

/-- Denylist `EXCLUDED_FOLDERS` from `file_sync.py` (module-level configuration). -/
def EXCLUDED_FOLDERS : List String :=
  ["$RECYCLE.BIN", "System Volume Information", "Recovery",
   "$WinREAgent", "hiberfil.sys", "pagefile.sys", "swapfile.sys",
   "Windows", "Program Files", "Program Files (x86)", "ProgramData"]

/-- Denylist `EXCLUDED_EXTENSIONS` from `file_sync.py`. -/
def EXCLUDED_EXTENSIONS : List String := [".tmp", ".temp", ".cache", ".lock"]

/-- Constant `MAX_WORKERS` from `file_sync.py`: width of the thread pool. -/
def MAX_WORKERS : Nat := 4

/-- Index of the last occurrence of `c` in the character list, if any. -/
def lastIdxOf (c : Char) : List Char → Option Nat
  | [] => none
  | x :: xs =>
    match lastIdxOf c xs with
    | some i => some (i + 1)
    | none => if x = c then some 0 else none

/-- Suffix of a file name, as computed by `pathlib.PurePath.suffix`: the part from the last dot,
provided that dot is neither the first nor the last character
(`0 < i < len(name) - 1` in the CPython implementation); otherwise `""`. -/
def pathSuffix (name : String) : String :=
  let cs := name.data
  match lastIdxOf '.' cs with
  | some i => if 0 < i ∧ i + 1 < cs.length then String.mk (cs.drop i) else ""
  | none => ""

/-- Lowercasing of a string, character by character — extensionally
`String.toLower` (`String.map Char.toLower`), written over the character
list; models Python `str.lower()` on the ASCII range relevant to the
denylisted extensions. -/
def strToLower (s : String) : String := String.mk (s.data.map Char.toLower)

/-- Class `FileInfo` from `file_sync.py`: metadata captured by one `stat` of a path.
The constructor's `except` branch (stat failure) yields
`size = 0, mtime = 0, exists = False`. -/
structure FileInfo where
  size : Int
  mtime : Int
  «exists» : Bool
deriving DecidableEq, Repr

/-- The `FileInfo` built for a path: `⟨size, mtime, true⟩` when the stat
succeeds, `⟨0, 0, false⟩` when it raises (`OSError`/`PermissionError`). -/
def mkFileInfo (size mtime : Int) (statOk : Bool) : FileInfo :=
  if statOk then ⟨size, mtime, true⟩ else ⟨0, 0, false⟩

/-- Method `FileInfo.needs_update`: update needed iff the other file does not exist,
or sizes differ, or modification times differ by more than 2 seconds. -/
def FileInfo.needs_update (self other : FileInfo) : Bool :=
  if !other.«exists» then true
  else if self.size != other.size then true
  else if (self.mtime - other.mtime).natAbs > 2 then true
  else false

/-- Method `FileInfo.calculate_hash`: `None` when the file does not exist, otherwise
the outcome of streaming the file through the digest — `ioHash` is that
outcome, `none` modelling the `except` branch (unreadable file). -/
def FileInfo.calculate_hash (self : FileInfo) (ioHash : Option String) :
    Option String :=
  if !self.«exists» then none else ioHash

/-- Class `SyncState`: the resume ledger's in-memory set of completed relative
paths (the `state_file` persistence is modelled by counting `save` calls in
the engine state below). -/
structure SyncState where
  completed_files : List PathParts
deriving DecidableEq, Repr

/-- Method `SyncState.mark_completed`: add a relative path to the completed set. -/
def SyncState.mark_completed (s : SyncState) (relative_path : PathParts) :
    SyncState :=
  { s with completed_files := s.completed_files.insert relative_path }

/-- Method `SyncState.is_completed`: membership test in the completed set. -/
def SyncState.is_completed (s : SyncState) (relative_path : PathParts) :
    Bool :=
  s.completed_files.contains relative_path

/-- Function `should_exclude` from `file_sync.py` (POSIX branch): a path is excluded
when one of its components is a denylisted folder name, or when the suffix of
its final component, lowercased, is a denylisted extension. -/
def should_exclude (parts : PathParts) : Bool :=
  parts.any (fun part => EXCLUDED_FOLDERS.contains part) ||
  EXCLUDED_EXTENSIONS.contains (strToLower (pathSuffix (parts.getLastD "")))

/-- A node of the filesystem tree being scanned: a file carries the metadata
a `stat` would observe (`statOk = false` models a file whose `stat` raises),
a directory carries its children. -/
inductive FSEntry where
  | file (name : String) (size : Int) (mtime : Int) (statOk : Bool)
  | dir (name : String) (children : List FSEntry)

/-- Output of a scan: the result map (relative path components ↦ `FileInfo`),
plus — instrumentation for the pruning property — the list of full paths on
which `FileInfo(...)` was constructed, i.e. which were statted. -/
structure ScanOut where
  result : List (PathParts × FileInfo)
  statted : List PathParts
deriving DecidableEq, Repr

/-- Concatenation of scan outputs of successive walk steps. -/
def ScanOut.append (a b : ScanOut) : ScanOut :=
  ⟨a.result ++ b.result, a.statted ++ b.statted⟩

mutual
/-- One step of the `os.walk(topdown=True)` traversal of `scan_drive_fast`:
a file is statted (and, when the stat succeeds, recorded under its relative
path) only if `should_exclude` rejects neither it nor any ancestor; an
excluded directory is pruned from `dirs` before descent, so nothing below it
is visited. `root` is the drive path, `rel` the relative path of the
directory being walked. -/
def scanEntry (root rel : PathParts) : FSEntry → ScanOut
  | .file name size mtime statOk =>
    if should_exclude (root ++ rel ++ [name]) then ⟨[], []⟩
    else
      let info := mkFileInfo size mtime statOk
      ⟨if info.«exists» then [(rel ++ [name], info)] else [],
       [root ++ rel ++ [name]]⟩
  | .dir name children =>
    if should_exclude (root ++ rel ++ [name]) then ⟨[], []⟩
    else scanForest root (rel ++ [name]) children

/-- Walk of a directory's children, accumulating scan output. -/
def scanForest (root rel : PathParts) : List FSEntry → ScanOut
  | [] => ⟨[], []⟩
  | e :: es => (scanEntry root rel e).append (scanForest root rel es)
end

/-- Function `scan_drive_fast`: walk the tree rooted at the drive path and build the
map from relative path to `FileInfo` (entries whose stat fails are skipped;
the `scanned_files`/`total_size` counter side effects are not needed here). -/
def scan_drive_fast (root : PathParts) (tree : List FSEntry) : ScanOut :=
  scanForest root [] tree

/-- Name of a tree node. -/
def entryName : FSEntry → String
  | .file n _ _ _ => n
  | .dir n _ => n

/-- Lookup of a FILE at a relative path in a filesystem tree: the size,
mtime and stat outcome the file there would report, if the path resolves to
a file of the tree (names are unique within a real directory, so the first
entry with the component's name is the one the filesystem resolves). -/
def findFileAt : PathParts → List FSEntry → Option (Int × Int × Bool)
  | [], _ => none
  | n :: rest, es =>
    match es.find? (fun e => entryName e = n) with
    | some (.file _ s t ok) => if rest.isEmpty then some (s, t, ok) else none
    | some (.dir _ cs) => if rest.isEmpty then none else findFileAt rest cs
    | none => none

/-- Stat of `drive / relative_path` at planning time — this is the
`FileInfo(dest_path)` the planning loop of `sync_drives` constructs: the
actual file found in the destination tree (absent or stat-failing paths give
the `⟨0, 0, false⟩` record of the constructor's `except` branch). -/
def statAt (tree : List FSEntry) (relative_path : PathParts) : FileInfo :=
  match findFileAt relative_path tree with
  | some (s, t, ok) => mkFileInfo s t ok
  | none => ⟨0, 0, false⟩

/-- Planning-phase slice of `FileSyncStats` plus the `files_to_copy` list
built by the analysis loop of `sync_drives`; a task carries the relative path
and the source `FileInfo` (its destination path is `dest_drive / rp` and the
`verify_hash` flag is run-wide). -/
structure PlanState where
  skipped_files : Nat
  new_files : Nat
  updated_files : Nat
  tasks : List (PathParts × FileInfo)
deriving DecidableEq, Repr

/-- Empty planning state (fresh `FileSyncStats`, empty `files_to_copy`). -/
def planInit : PlanState := ⟨0, 0, 0, []⟩

/-- Guard `state and state.is_completed(relative_path)` of the planning
loop (`state` is `None` when `resume` is off). -/
def ledgerSkip : Option SyncState → PathParts → Bool
  | some s, rp => s.is_completed rp
  | none, _ => false

/-- Analysis loop of `sync_drives` (`for relative_path, source_info in
source_files.items()`): skip ledger-completed entries, otherwise stat the
destination path (`destStat rp` models `FileInfo(dest_drive / rp)`), classify
with `needs_update` and append a copy task. -/
def planFiles (state : Option SyncState) (destStat : PathParts → FileInfo) :
    List (PathParts × FileInfo) → PlanState → PlanState
  | [], st => st
  | (rp, source_info) :: rest, st =>
    if ledgerSkip state rp then
      planFiles state destStat rest
        { st with skipped_files := st.skipped_files + 1 }
    else
      let dest_info := destStat rp
      if source_info.needs_update dest_info then
        let st1 :=
          if !dest_info.«exists» then
            { st with new_files := st.new_files + 1 }
          else
            { st with updated_files := st.updated_files + 1 }
        planFiles state destStat rest
          { st1 with tasks := st1.tasks ++ [(rp, source_info)] }
      else
        planFiles state destStat rest st

/-- One attempt loop of `copy_file_with_retry`: `made` attempts were already
made, `n` remain; `attemptOk i` tells whether attempt number `i` (mkdir +
`shutil.copy2` + post-copy size comparison) succeeds. Returns the final
outcome and the total number of attempts performed. -/
def copyRetryGo (attemptOk : Nat → Bool) : Nat → Nat → Bool × Nat
  | 0, made => (false, made)
  | n + 1, made =>
    if attemptOk made then (true, made + 1)
    else copyRetryGo attemptOk n (made + 1)

/-- Function `copy_file_with_retry` (default `retries = 3`): attempts the
copy at most `retries` times, returning `true` at the first attempt that
raises no exception and passes the post-copy size verification, `false` when
all attempts fail; also returns how many attempts were performed. -/
def copy_file_with_retry (attemptOk : Nat → Bool) (retries : Nat) :
    Bool × Nat :=
  copyRetryGo attemptOk retries 0

/-- One element of `files_to_copy` together with the filesystem behaviour
its execution will observe: `destExists` is `dest_file.exists()` at the
hash short-circuit check, `srcHashRead`/`dstHashRead` are the digest-read
outcomes for source and destination, `dstInfo` is the `FileInfo(dest_file)`
built for hashing, and `attemptOk` the copy attempt outcomes. -/
structure CopyTask where
  rp : PathParts
  src : FileInfo
  verify_hash : Bool
  destExists : Bool
  srcHashRead : Option String
  dstHashRead : Option String
  dstInfo : FileInfo
  attemptOk : Nat → Bool

/-- Result triple `(relative_path, success, size)` of `copy_single_file`,
plus — instrumentation — the number of copy attempts performed (`0` means
`copy_file_with_retry` was never called, so the destination bytes were not
rewritten). -/
structure CopyResult where
  rp : PathParts
  success : Bool
  size : Int
  attempts : Nat
deriving DecidableEq, Repr

/-- Copy path of `copy_single_file` after the optional hash short-circuit:
`size = source_file.size`, `success = copy_file_with_retry(...)`, returning
`size if success else 0`. -/
def doCopy (t : CopyTask) : CopyResult :=
  let c := copy_file_with_retry t.attemptOk 3
  ⟨t.rp, c.1, if c.1 then t.src.size else 0, c.2⟩

/-- Function `copy_single_file`: when `verify_hash` is requested and the
destination exists, compare `source_file.calculate_hash()` with
`FileInfo(dest_file).calculate_hash()` and report success with zero bytes
when they are equal; otherwise copy with retry. Under this model nothing in
the body raises (hash failures are `none`, copy failures are caught inside
`copy_file_with_retry`), so the outer `except` branch is unreachable. -/
def copy_single_file (t : CopyTask) : CopyResult :=
  if t.verify_hash && t.destExists then
    let source_hash := t.src.calculate_hash t.srcHashRead
    let dest_hash := t.dstInfo.calculate_hash t.dstHashRead
    if source_hash == dest_hash then ⟨t.rp, true, 0, 0⟩
    else doCopy t
  else doCopy t

/-- Execution-phase state of `sync_drives`: the copy slice of
`FileSyncStats`, the optional resume ledger (`None` when `resume` is off),
and — instrumentation — the number of `state.save()` calls performed. -/
structure EngineState where
  copied_files : Nat
  failed_files : Nat
  copied_size : Int
  state : Option SyncState
  saves : Nat
deriving DecidableEq, Repr

/-- Whether the engine's ledger currently contains a path (false when
`resume` is off). -/
def EngineState.ledger_has (st : EngineState) (p : PathParts) : Bool :=
  match st.state with
  | some s => s.is_completed p
  | none => false

/-- Completion handling shared by both execution branches of `sync_drives`:
on success increment `copied_files`/`copied_size` and mark the path
completed in the ledger (when resuming); on failure increment
`failed_files` only. -/
def processResult (st : EngineState) (r : CopyResult) : EngineState :=
  if r.success then
    let st1 := { st with copied_files := st.copied_files + 1,
                         copied_size := st.copied_size + r.size }
    match st1.state with
    | some s => { st1 with state := some (s.mark_completed r.rp) }
    | none => st1
  else
    { st with failed_files := st.failed_files + 1 }

/-- One completion in the concurrent (`ThreadPoolExecutor`) branch: handle
the result, then `if state and stats.copied_files % 100 == 0: state.save()`. -/
def concStep (st : EngineState) (r : CopyResult) : EngineState :=
  let st1 := processResult st r
  if st1.state.isSome && st1.copied_files % 100 == 0 then
    { st1 with saves := st1.saves + 1 }
  else st1

/-- One completion in the sequential branch: handle the result (this branch
performs no periodic save). -/
def seqStep (st : EngineState) (r : CopyResult) : EngineState :=
  processResult st r

/-- Concurrent execution loop over the task results, in the order
`as_completed` yields them. -/
def runConc (st : EngineState) (rs : List CopyResult) : EngineState :=
  rs.foldl concStep st

/-- Sequential execution loop over the task results, in plan order. -/
def runSeq (st : EngineState) (rs : List CopyResult) : EngineState :=
  rs.foldl seqStep st

/-- Execution loop of `sync_drives`: the concurrent branch when
`parallel and MAX_WORKERS > 1`, the sequential branch otherwise. -/
def runCopy (parallel : Bool) (st : EngineState) (rs : List CopyResult) :
    EngineState :=
  if parallel && decide (MAX_WORKERS > 1) then runConc st rs
  else runSeq st rs

/-- Final `if state: state.save()` after the execution loop. -/
def finalSave (st : EngineState) : EngineState :=
  if st.state.isSome then { st with saves := st.saves + 1 } else st

/-- Engine state with the save counter reset; the two execution branches
agree on everything else. -/
def stripSaves (st : EngineState) : EngineState := { st with saves := 0 }

/-- Source map, destination drive path and destination tree on which the
code's planning and the spec's destination-ScanResult lookup disagree: the
destination drive lies under a path containing the denylisted component
`Windows`, so its scan result is empty, while the file `a.txt` (identical to
the source) is present on disk and found by the planning loop's fresh
`FileInfo(dest_path)` stat. -/
def c7Src : List (PathParts × FileInfo) := [(["a.txt"], ⟨10, 100, true⟩)]

/-- Destination drive path of the C7 scenario. -/
def c7DestRoot : PathParts := ["backup", "Windows"]

/-- Destination tree of the C7 scenario. -/
def c7DestTree : List FSEntry := [.file "a.txt" 10 100 true]

/-- Sequential run of 101 all-successful tasks, on which the sequential
engine saves the ledger only once (at the very end). -/
def c8Results : List CopyResult := List.replicate 101 ⟨["f"], true, 1, 1⟩

/-! Helper lemmas about the planning loop. -/

/-- The planning loop increments `skipped_files` once per source entry whose
relative path the ledger marks completed. -/
theorem planFiles_skipped (state : Option SyncState)
    (destStat : PathParts → FileInfo) (src : List (PathParts × FileInfo))
    (st : PlanState) :
    (planFiles state destStat src st).skipped_files =
      st.skipped_files + src.countP (fun e => ledgerSkip state e.1) := by
  induction src generalizing st with
  | nil => simp [planFiles]
  | cons e rest ih =>
    obtain ⟨rp, si⟩ := e
    by_cases h : ledgerSkip state rp
    · simp only [planFiles, h, if_pos, List.countP_cons]
      rw [ih]
      simp [h]
      omega
    · simp only [planFiles, h, if_neg, List.countP_cons]
      by_cases h2 : si.needs_update (destStat rp) = true
      · by_cases h3 : (destStat rp).«exists» <;>
          simp [h, h2, h3, ih, List.countP_cons]
      · simp only [Bool.not_eq_true] at h2
        simp [h, h2, ih, List.countP_cons]

/-- The tasks produced by the planning loop are exactly the source entries
that are not ledger-skipped and whose fresh destination stat makes
`needs_update` true, in source order. -/
theorem planFiles_tasks (state : Option SyncState)
    (destStat : PathParts → FileInfo) (src : List (PathParts × FileInfo))
    (st : PlanState) :
    (planFiles state destStat src st).tasks =
      st.tasks ++ src.filter
        (fun e => !ledgerSkip state e.1 && e.2.needs_update (destStat e.1)) := by
  induction src generalizing st with
  | nil => simp [planFiles]
  | cons e rest ih =>
    obtain ⟨rp, si⟩ := e
    by_cases h : ledgerSkip state rp
    · simp [planFiles, h, ih]
    · by_cases h2 : si.needs_update (destStat rp) = true
      · by_cases h3 : (destStat rp).«exists» <;>
          simp [planFiles, h, h2, h3, ih]
      · simp only [Bool.not_eq_true] at h2
        simp [planFiles, h, h2, ih]

/-- The planning loop counts as `new` exactly the non-skipped entries
needing update whose fresh destination stat reports a non-existing file. -/
theorem planFiles_new (state : Option SyncState)
    (destStat : PathParts → FileInfo) (src : List (PathParts × FileInfo))
    (st : PlanState) :
    (planFiles state destStat src st).new_files =
      st.new_files + src.countP
        (fun e => !ledgerSkip state e.1 && e.2.needs_update (destStat e.1) &&
          !(destStat e.1).«exists») := by
  induction src generalizing st with
  | nil => simp [planFiles]
  | cons e rest ih =>
    obtain ⟨rp, si⟩ := e
    by_cases h : ledgerSkip state rp
    · simp [planFiles, h, ih, List.countP_cons]
    · by_cases h2 : si.needs_update (destStat rp) = true
      · by_cases h3 : (destStat rp).«exists» = true <;>
          simp [planFiles, h, h2, h3, ih, List.countP_cons] <;> omega
      · simp only [Bool.not_eq_true] at h2
        simp [planFiles, h, h2, ih, List.countP_cons]

/-- The planning loop counts as `updated` exactly the non-skipped entries
needing update whose fresh destination stat reports an existing file. -/
theorem planFiles_updated (state : Option SyncState)
    (destStat : PathParts → FileInfo) (src : List (PathParts × FileInfo))
    (st : PlanState) :
    (planFiles state destStat src st).updated_files =
      st.updated_files + src.countP
        (fun e => !ledgerSkip state e.1 && e.2.needs_update (destStat e.1) &&
          (destStat e.1).«exists») := by
  induction src generalizing st with
  | nil => simp [planFiles]
  | cons e rest ih =>
    obtain ⟨rp, si⟩ := e
    by_cases h : ledgerSkip state rp
    · simp [planFiles, h, ih, List.countP_cons]
    · by_cases h2 : si.needs_update (destStat rp) = true
      · by_cases h3 : (destStat rp).«exists» = true <;>
          simp [planFiles, h, h2, h3, ih, List.countP_cons] <;> omega
      · simp only [Bool.not_eq_true] at h2
        simp [planFiles, h, h2, ih, List.countP_cons]

/-! Claim theorems C1, C2, C7. -/

/-- C1: for a source record `s` with `s.exists = true` and any destination
record `d`, `needs_update s d` is true iff `d` does not exist, or the sizes
differ, or the modification times differ by more than 2 seconds; in
particular it is false when `d` exists with equal size and time difference
at most 2 (the only way none of the three disjuncts holds), and it is true
whenever the sizes differ, regardless of timestamps. -/
theorem C1_needs_update_spec (s d : FileInfo) (hs : s.«exists» = true) :
    (s.needs_update d = true ↔
      d.«exists» = false ∨ s.size ≠ d.size ∨ 2 < (s.mtime - d.mtime).natAbs) ∧
    (d.«exists» = true → s.size = d.size → (s.mtime - d.mtime).natAbs ≤ 2 →
      s.needs_update d = false) ∧
    (s.size ≠ d.size → s.needs_update d = true) := by
  obtain ⟨ss, sm, se⟩ := s
  obtain ⟨ds, dm, de⟩ := d
  simp only [FileInfo.needs_update]
  cases de <;> by_cases h1 : ss = ds <;> simp_all [bne_iff_ne] <;> omega

/-- Concrete instance of C1: both files exist, equal sizes, time difference
of 1 second: no update needed; and a size difference forces an update. -/
theorem C1_needs_update_spec_witness :
    (⟨3, 5, true⟩ : FileInfo).«exists» = true ∧
    FileInfo.needs_update ⟨3, 5, true⟩ ⟨3, 6, true⟩ = false ∧
    FileInfo.needs_update ⟨3, 5, true⟩ ⟨4, 5, true⟩ = true :=
  ⟨rfl,
   (C1_needs_update_spec ⟨3, 5, true⟩ ⟨3, 6, true⟩ rfl).2.1 rfl rfl (by decide),
   (C1_needs_update_spec ⟨3, 5, true⟩ ⟨4, 5, true⟩ rfl).2.2 (by decide)⟩

/-- C2: with resume enabled, a source entry whose relative path the ledger
marks completed yields no copy task and is counted in `skipped_files`
(one per completed entry), for EVERY destination-stat behaviour `destStat` —
in particular even when the destination copy has been deleted out-of-band,
since the quantification over `destStat` covers a destination where the path
is absent. -/
theorem C2_resume_skip (ledger : SyncState) (destStat : PathParts → FileInfo)
    (src : List (PathParts × FileInfo)) (p : PathParts)
    (hp : ledger.is_completed p = true) :
    (∀ si, (p, si) ∉ (planFiles (some ledger) destStat src planInit).tasks) ∧
    (planFiles (some ledger) destStat src planInit).skipped_files =
      src.countP (fun e => ledger.is_completed e.1) := by
  constructor
  · intro si hmem
    rw [planFiles_tasks] at hmem
    simp only [planInit, List.nil_append] at hmem
    have := List.of_mem_filter hmem
    simp only [ledgerSkip, hp] at this
    simp at this
  · rw [planFiles_skipped]
    simp [planInit, ledgerSkip]

/-- Concrete instance of C2: ledger contains `a`, destination stat reports
`a` as deleted (absent everywhere); `a` yields no task and is counted
skipped once. -/
theorem C2_resume_skip_witness :
    (SyncState.mk [["a"]]).is_completed ["a"] = true ∧
    (∀ si, (["a"], si) ∉
      (planFiles (some (SyncState.mk [["a"]])) (fun _ => ⟨0, 0, false⟩)
        [(["a"], ⟨1, 2, true⟩), (["b"], ⟨1, 2, true⟩)] planInit).tasks) ∧
    (planFiles (some (SyncState.mk [["a"]])) (fun _ => ⟨0, 0, false⟩)
        [(["a"], ⟨1, 2, true⟩), (["b"], ⟨1, 2, true⟩)] planInit).skipped_files =
      [(["a"], (⟨1, 2, true⟩ : FileInfo)), (["b"], ⟨1, 2, true⟩)].countP
        (fun e => (SyncState.mk [["a"]]).is_completed e.1) :=
  ⟨by decide,
   (C2_resume_skip (SyncState.mk [["a"]]) (fun _ => ⟨0, 0, false⟩)
     [(["a"], ⟨1, 2, true⟩), (["b"], ⟨1, 2, true⟩)] ["a"] (by decide)).1,
   (C2_resume_skip (SyncState.mk [["a"]]) (fun _ => ⟨0, 0, false⟩)
     [(["a"], ⟨1, 2, true⟩), (["b"], ⟨1, 2, true⟩)] ["a"] (by decide)).2⟩

/-- C7 fails on the code: in the scenario above the destination ScanResult
does not contain `a.txt` (so the claim classifies the entry as `new` and
demands a task), yet the planning loop — which stats the destination path
afresh instead of consulting the destination ScanResult — finds an
up-to-date file and produces no task and no `new` classification. -/
theorem C7_counterexample :
    ((scan_drive_fast c7DestRoot c7DestTree).result.lookup ["a.txt"]
      = none) ∧
    (planFiles (some ⟨[]⟩) (statAt c7DestTree) c7Src planInit).tasks = [] ∧
    (planFiles (some ⟨[]⟩) (statAt c7DestTree) c7Src planInit).new_files = 0 := by
  decide

/-- C7 amended: for every source entry not skipped via the ledger, planning
classifies it by a FRESH stat of `dest_drive / relative_path` in the
destination filesystem (not by lookup in the destination ScanResult) and
applies `needs_update` to that record: the entry is classified `new` exactly
when the freshly statted destination file does not exist, `updated` when it
exists, and produces no task when `needs_update` is false. -/
theorem C7_amended_fresh_stat_classification (state : Option SyncState)
    (destTree : List FSEntry) (src : List (PathParts × FileInfo)) :
    (planFiles state (statAt destTree) src planInit).tasks =
      src.filter (fun e => !ledgerSkip state e.1 &&
        e.2.needs_update (statAt destTree e.1)) ∧
    (planFiles state (statAt destTree) src planInit).new_files =
      src.countP (fun e => !ledgerSkip state e.1 &&
        e.2.needs_update (statAt destTree e.1) &&
        !(statAt destTree e.1).«exists») ∧
    (planFiles state (statAt destTree) src planInit).updated_files =
      src.countP (fun e => !ledgerSkip state e.1 &&
        e.2.needs_update (statAt destTree e.1) &&
        (statAt destTree e.1).«exists») := by
  refine ⟨?_, ?_, ?_⟩
  · rw [planFiles_tasks]; simp [planInit]
  · rw [planFiles_new]; simp [planInit]
  · rw [planFiles_updated]; simp [planInit]

/-! Helper lemmas about the retry loop and the copy engine. -/

/-- Exhausting the retry loop: when every remaining attempt fails, the loop
returns failure after performing all of them. -/
theorem copyRetryGo_all_fail (attemptOk : Nat → Bool) (n made : Nat)
    (h : ∀ i, made ≤ i → i < made + n → attemptOk i = false) :
    copyRetryGo attemptOk n made = (false, made + n) := by
  induction n generalizing made with
  | zero => simp [copyRetryGo]
  | succ k ih =>
    have h0 : attemptOk made = false := h made (Nat.le_refl _) (by omega)
    rw [copyRetryGo, h0]
    simp only [Bool.false_eq_true, if_false]
    rw [ih (made + 1) (fun i h1 h2 => h i (by omega) (by omega))]
    congr 1
    omega

/-- Success of `copy_single_file` comes either from the hash short-circuit
or from a successful `copy_file_with_retry`. -/
theorem copy_single_file_success_cases (t : CopyTask)
    (h : (copy_single_file t).success = true) :
    (t.verify_hash = true ∧ t.destExists = true ∧
      t.src.calculate_hash t.srcHashRead = t.dstInfo.calculate_hash t.dstHashRead) ∨
    (copy_file_with_retry t.attemptOk 3).1 = true := by
  by_cases hv : t.verify_hash = true
  · by_cases he : t.destExists = true
    · by_cases hh : t.src.calculate_hash t.srcHashRead =
          t.dstInfo.calculate_hash t.dstHashRead
      · exact Or.inl ⟨hv, he, hh⟩
      · right
        simp only [copy_single_file, hv, he, Bool.and_self, if_true] at h
        rw [if_neg (by simpa using hh)] at h
        simpa [doCopy] using h
    · right
      simp only [Bool.not_eq_true] at he
      simp only [copy_single_file, he, Bool.and_false, Bool.false_eq_true,
        if_false] at h
      simpa [doCopy] using h
  · right
    simp only [Bool.not_eq_true] at hv
    simp only [copy_single_file, hv, Bool.false_and, Bool.false_eq_true,
      if_false] at h
    simpa [doCopy] using h

/-- The relative path of a copy result is the task's relative path. -/
theorem copy_single_file_rp (t : CopyTask) : (copy_single_file t).rp = t.rp := by
  by_cases hv : t.verify_hash = true <;>
    by_cases he : t.destExists = true <;>
      simp [copy_single_file, hv, he, doCopy] <;>
      split <;> simp

/-- The completion handler's counter and ledger effects are determined by
the counter and ledger parts of the input state. -/
theorem processResult_stripSaves (st₁ st₂ : EngineState) (r : CopyResult)
    (h : stripSaves st₁ = stripSaves st₂) :
    stripSaves (processResult st₁ r) = stripSaves (processResult st₂ r) := by
  obtain ⟨c1, f1, z1, o1, v1⟩ := st₁
  obtain ⟨c2, f2, z2, o2, v2⟩ := st₂
  simp only [stripSaves, EngineState.mk.injEq] at h
  obtain ⟨hc, hf, hz, ho, -⟩ := h
  subst hc; subst hf; subst hz; subst ho
  by_cases hs : r.success = true <;> cases o1 <;>
    simp [processResult, hs, stripSaves]

/-- The concurrent step differs from the shared completion handler only in
the save counter. -/
theorem concStep_stripSaves (st : EngineState) (r : CopyResult) :
    stripSaves (concStep st r) = stripSaves (processResult st r) := by
  simp only [concStep]
  split <;> simp [stripSaves]

/-- Modulo the save counter, the concurrent loop and the sequential loop
compute the same state from states agreeing modulo the save counter. -/
theorem runConc_runSeq_stripSaves (rs : List CopyResult)
    (st₁ st₂ : EngineState) (h : stripSaves st₁ = stripSaves st₂) :
    stripSaves (runConc st₁ rs) = stripSaves (runSeq st₂ rs) := by
  induction rs generalizing st₁ st₂ with
  | nil => simpa [runConc, runSeq] using h
  | cons r rest ih =>
    simp only [runConc, runSeq, List.foldl_cons] at *
    exact ih _ _ ((concStep_stripSaves st₁ r).trans
      (processResult_stripSaves st₁ st₂ r h))

/-- Counter bookkeeping of one completion: `copied_files`. -/
theorem processResult_copied (st : EngineState) (r : CopyResult) :
    (processResult st r).copied_files =
      st.copied_files + (if r.success then 1 else 0) := by
  obtain ⟨c, f, z, o, v⟩ := st
  by_cases hs : r.success = true <;> cases o <;> simp [processResult, hs]

/-- Counter bookkeeping of one completion: `failed_files`. -/
theorem processResult_failed (st : EngineState) (r : CopyResult) :
    (processResult st r).failed_files =
      st.failed_files + (if r.success then 0 else 1) := by
  obtain ⟨c, f, z, o, v⟩ := st
  by_cases hs : r.success = true <;> cases o <;> simp [processResult, hs]

/-- Counter bookkeeping of one completion: `copied_size`. -/
theorem processResult_size (st : EngineState) (r : CopyResult) :
    (processResult st r).copied_size =
      st.copied_size + (if r.success then r.size else 0) := by
  obtain ⟨c, f, z, o, v⟩ := st
  by_cases hs : r.success = true <;> cases o <;> simp [processResult, hs]

/-- The completion handler never saves. -/
theorem processResult_saves (st : EngineState) (r : CopyResult) :
    (processResult st r).saves = st.saves := by
  obtain ⟨c, f, z, o, v⟩ := st
  by_cases hs : r.success = true <;> cases o <;> simp [processResult, hs]

/-- Ledger evolution of one completion: on success the path is marked
completed (when resuming), otherwise the ledger is untouched. -/
theorem processResult_state (st : EngineState) (r : CopyResult) :
    (processResult st r).state =
      if r.success then st.state.map (fun s => s.mark_completed r.rp)
      else st.state := by
  obtain ⟨c, f, z, o, v⟩ := st
  by_cases hs : r.success = true <;> cases o <;> simp [processResult, hs]

/-- Membership in the set after `mark_completed`. -/
theorem is_completed_mark_completed (s : SyncState) (q p : PathParts) :
    (s.mark_completed q).is_completed p = true ↔
      p = q ∨ s.is_completed p = true := by
  simp [SyncState.mark_completed, SyncState.is_completed, List.elem_iff,
    List.mem_insert_iff]

/-- Ledger membership after one completion. -/
theorem processResult_ledger_has (st : EngineState) (r : CopyResult)
    (p : PathParts) :
    ((processResult st r).ledger_has p = true) ↔
      (st.ledger_has p = true ∨
        (st.state.isSome = true ∧ r.success = true ∧ r.rp = p)) := by
  by_cases hs : r.success = true <;> cases ho : st.state <;>
    simp [EngineState.ledger_has, processResult_state, hs, ho,
      is_completed_mark_completed] <;>
    tauto

/-- Whether the run resumes is invariant along the sequential loop. -/
theorem processResult_state_isSome (st : EngineState) (r : CopyResult) :
    (processResult st r).state.isSome = st.state.isSome := by
  rw [processResult_state]
  by_cases hs : r.success = true <;> simp [hs, Option.isSome_map']

/-- Final `copied_files` of the sequential loop: one per successful result. -/
theorem runSeq_copied (st : EngineState) (rs : List CopyResult) :
    (runSeq st rs).copied_files =
      st.copied_files + rs.countP (fun r => r.success) := by
  induction rs generalizing st with
  | nil => simp [runSeq]
  | cons r rest ih =>
    simp only [runSeq, List.foldl_cons] at *
    rw [ih, seqStep, processResult_copied, List.countP_cons]
    by_cases hs : r.success = true <;> simp [hs] <;> omega

/-- Final `failed_files` of the sequential loop: one per failed result. -/
theorem runSeq_failed (st : EngineState) (rs : List CopyResult) :
    (runSeq st rs).failed_files =
      st.failed_files + rs.countP (fun r => !r.success) := by
  induction rs generalizing st with
  | nil => simp [runSeq]
  | cons r rest ih =>
    simp only [runSeq, List.foldl_cons] at *
    rw [ih, seqStep, processResult_failed, List.countP_cons]
    by_cases hs : r.success = true <;> simp [hs] <;> omega

/-- Final `copied_size` of the sequential loop: the sizes of the successful
results, summed. -/
theorem runSeq_size (st : EngineState) (rs : List CopyResult) :
    (runSeq st rs).copied_size =
      st.copied_size + ((rs.filter (fun r => r.success)).map
        (fun r => r.size)).sum := by
  induction rs generalizing st with
  | nil => simp [runSeq]
  | cons r rest ih =>
    simp only [runSeq, List.foldl_cons] at *
    rw [ih, seqStep, processResult_size, List.filter_cons]
    by_cases hs : r.success = true <;> simp [hs] <;> ring

/-- The sequential loop performs no periodic save. -/
theorem runSeq_saves (st : EngineState) (rs : List CopyResult) :
    (runSeq st rs).saves = st.saves := by
  induction rs generalizing st with
  | nil => simp [runSeq]
  | cons r rest ih =>
    simp only [runSeq, List.foldl_cons] at *
    rw [ih, seqStep, processResult_saves]

/-- Whether the run resumes is invariant along the whole sequential loop. -/
theorem runSeq_state_isSome (st : EngineState) (rs : List CopyResult) :
    (runSeq st rs).state.isSome = st.state.isSome := by
  induction rs generalizing st with
  | nil => simp [runSeq]
  | cons r rest ih =>
    simp only [runSeq, List.foldl_cons] at *
    rw [ih, seqStep, processResult_state_isSome]

/-- Ledger membership after the sequential loop: a path is completed iff it
was already completed or some successful result carries it (and the run
resumes). -/
theorem runSeq_ledger_has (st : EngineState) (rs : List CopyResult)
    (p : PathParts) :
    ((runSeq st rs).ledger_has p = true) ↔
      (st.ledger_has p = true ∨
        (st.state.isSome = true ∧ ∃ r ∈ rs, r.success = true ∧ r.rp = p)) := by
  induction rs generalizing st with
  | nil => simp [runSeq]
  | cons r rest ih =>
    simp only [runSeq, List.foldl_cons] at *
    rw [ih, seqStep, processResult_ledger_has, processResult_state_isSome]
    simp only [List.mem_cons]
    constructor
    · rintro ((h | ⟨hs, h1, h2⟩) | ⟨hs, r', hr', h1, h2⟩)
      · exact Or.inl h
      · exact Or.inr ⟨hs, r, Or.inl rfl, h1, h2⟩
      · exact Or.inr ⟨hs, r', Or.inr hr', h1, h2⟩
    · rintro (h | ⟨hs, r', (rfl | hr'), h1, h2⟩)
      · exact Or.inl (Or.inl h)
      · exact Or.inl (Or.inr ⟨hs, h1, h2⟩)
      · exact Or.inr ⟨hs, r', hr', h1, h2⟩

/-- Transfer of the counter characterizations to the concurrent loop. -/
theorem runConc_eq_runSeq_counters (st : EngineState) (rs : List CopyResult) :
    (runConc st rs).copied_files = (runSeq st rs).copied_files ∧
    (runConc st rs).failed_files = (runSeq st rs).failed_files ∧
    (runConc st rs).copied_size = (runSeq st rs).copied_size ∧
    (runConc st rs).state = (runSeq st rs).state := by
  have h := runConc_runSeq_stripSaves rs st st rfl
  simp only [stripSaves, EngineState.mk.injEq] at h
  exact ⟨h.1, h.2.1, h.2.2.1, h.2.2.2.1⟩

/-- Every completion is counted: copied plus failed grows by the number of
processed results, in both execution branches. -/
theorem runCopy_total_counts (parallel : Bool) (st : EngineState)
    (rs : List CopyResult) :
    (runCopy parallel st rs).copied_files + (runCopy parallel st rs).failed_files =
      st.copied_files + st.failed_files + rs.length := by
  have hsplit : rs.countP (fun r => r.success) +
      rs.countP (fun r => !r.success) = rs.length := by
    induction rs with
    | nil => simp
    | cons r rest ih =>
      cases hr : r.success <;> simp [List.countP_cons, hr] <;> omega
  have hseq : (runSeq st rs).copied_files + (runSeq st rs).failed_files =
      st.copied_files + st.failed_files + rs.length := by
    rw [runSeq_copied, runSeq_failed]
    omega
  unfold runCopy
  split
  · have h := runConc_eq_runSeq_counters st rs
    omega
  · exact hseq

/-! Claim theorems C3, C4, C10. -/

/-- C3: a copy task whose hash short-circuit does not apply and whose every
attempt fails (exceptions or post-copy size re-check failures alike, both
being `attemptOk i = false`) performs exactly 3 attempts in
`copy_file_with_retry` and reports failure; processing that result
increments only `failed_files` (in particular the path is not added to the
resume ledger); and the loop still counts every task of the plan, so later
tasks are still processed. -/
theorem C3_retry_exhaustion (t : CopyTask)
    (hA : ∀ i, i < 3 → t.attemptOk i = false)
    (hS : t.verify_hash = false ∨ t.destExists = false ∨
      t.src.calculate_hash t.srcHashRead ≠ t.dstInfo.calculate_hash t.dstHashRead) :
    copy_file_with_retry t.attemptOk 3 = (false, 3) ∧
    copy_single_file t = ⟨t.rp, false, 0, 3⟩ ∧
    (∀ st : EngineState, processResult st (copy_single_file t) =
      { st with failed_files := st.failed_files + 1 }) ∧
    (∀ parallel st (rs : List CopyResult),
      (runCopy parallel st rs).copied_files +
        (runCopy parallel st rs).failed_files =
      st.copied_files + st.failed_files + rs.length) := by
  have hretry : copy_file_with_retry t.attemptOk 3 = (false, 3) := by
    unfold copy_file_with_retry
    simpa using copyRetryGo_all_fail t.attemptOk 3 0
      (fun i _ h2 => hA i (by omega))
  have hdo : doCopy t = ⟨t.rp, false, 0, 3⟩ := by
    simp [doCopy, hretry]
  have hsingle : copy_single_file t = ⟨t.rp, false, 0, 3⟩ := by
    unfold copy_single_file
    rcases hS with h | h | h
    · simp [h, hdo]
    · simp [h, hdo]
    · by_cases hg : (t.verify_hash && t.destExists) = true
      · simp only [hg, if_true]
        rw [if_neg (by simpa using h)]
        exact hdo
      · simp only [hg, Bool.false_eq_true, if_false]
        exact hdo
  refine ⟨hretry, hsingle, ?_, runCopy_total_counts⟩
  intro st
  rw [hsingle]
  obtain ⟨c, f, z, o, v⟩ := st
  cases o <;> simp [processResult]

/-- Concrete instance of C3: every attempt of the copy fails; the retry
count is 3, the task fails, only `failed_files` moves, and a two-task plan
still counts both tasks. -/
theorem C3_retry_exhaustion_witness :
    (∀ i, i < 3 →
      (CopyTask.mk ["f"] ⟨5, 5, true⟩ false false none none ⟨0, 0, false⟩
        (fun _ => false)).attemptOk i = false) ∧
    copy_file_with_retry
      (CopyTask.mk ["f"] ⟨5, 5, true⟩ false false none none ⟨0, 0, false⟩
        (fun _ => false)).attemptOk 3 = (false, 3) ∧
    copy_single_file
      (CopyTask.mk ["f"] ⟨5, 5, true⟩ false false none none ⟨0, 0, false⟩
        (fun _ => false)) = ⟨["f"], false, 0, 3⟩ ∧
    (runCopy false ⟨0, 0, 0, some ⟨[]⟩, 0⟩
        [⟨["f"], false, 0, 3⟩, ⟨["g"], true, 7, 1⟩]).copied_files +
      (runCopy false ⟨0, 0, 0, some ⟨[]⟩, 0⟩
        [⟨["f"], false, 0, 3⟩, ⟨["g"], true, 7, 1⟩]).failed_files = 0 + 0 + 2 :=
  ⟨fun i _ => rfl,
   (C3_retry_exhaustion _ (fun i _ => rfl) (Or.inl rfl)).1,
   (C3_retry_exhaustion _ (fun i _ => rfl) (Or.inl rfl)).2.1,
   (C3_retry_exhaustion
     (CopyTask.mk ["f"] ⟨5, 5, true⟩ false false none none ⟨0, 0, false⟩
       (fun _ => false)) (fun i _ => rfl) (Or.inl rfl)).2.2.2 false
     ⟨0, 0, 0, some ⟨[]⟩, 0⟩ [⟨["f"], false, 0, 3⟩, ⟨["g"], true, 7, 1⟩]⟩

/-- C4: when hash verification is requested, the destination file exists and
both content hashes were computed and are equal, the task succeeds with zero
bytes and zero copy attempts (the destination bytes are not rewritten);
processing the result increments `copied_files` by one and `copied_size` by
zero, and marks the path completed in the resume ledger. -/
theorem C4_hash_shortcircuit (t : CopyTask) (h : String)
    (hv : t.verify_hash = true) (he : t.destExists = true)
    (hsh : t.src.calculate_hash t.srcHashRead = some h)
    (hdh : t.dstInfo.calculate_hash t.dstHashRead = some h) :
    copy_single_file t = ⟨t.rp, true, 0, 0⟩ ∧
    (∀ st : EngineState,
      (processResult st (copy_single_file t)).copied_files =
        st.copied_files + 1 ∧
      (processResult st (copy_single_file t)).copied_size =
        st.copied_size + 0 ∧
      (st.state.isSome = true →
        (processResult st (copy_single_file t)).ledger_has t.rp = true)) := by
  have hsingle : copy_single_file t = ⟨t.rp, true, 0, 0⟩ := by
    unfold copy_single_file
    simp [hv, he, hsh, hdh]
  refine ⟨hsingle, fun st => ⟨?_, ?_, fun hst => ?_⟩⟩
  · rw [hsingle, processResult_copied]; simp
  · rw [hsingle, processResult_size]; simp
  · rw [hsingle, processResult_ledger_has]
    right
    exact ⟨by simpa using hst, rfl, rfl⟩

/-- Concrete instance of C4: equal `md5`-style digests on both sides; the
task is a zero-byte, zero-attempt success and the path lands in the ledger. -/
theorem C4_hash_shortcircuit_witness :
    (CopyTask.mk ["d"] ⟨9, 9, true⟩ true true (some "abc") (some "abc")
      ⟨9, 1, true⟩ (fun _ => false)).verify_hash = true ∧
    copy_single_file
      (CopyTask.mk ["d"] ⟨9, 9, true⟩ true true (some "abc") (some "abc")
        ⟨9, 1, true⟩ (fun _ => false)) = ⟨["d"], true, 0, 0⟩ ∧
    (processResult ⟨0, 0, 0, some ⟨[]⟩, 0⟩
      (copy_single_file
        (CopyTask.mk ["d"] ⟨9, 9, true⟩ true true (some "abc") (some "abc")
          ⟨9, 1, true⟩ (fun _ => false)))).ledger_has ["d"] = true :=
  ⟨rfl,
   (C4_hash_shortcircuit
     (CopyTask.mk ["d"] ⟨9, 9, true⟩ true true (some "abc") (some "abc")
       ⟨9, 1, true⟩ (fun _ => false)) "abc" rfl rfl rfl rfl).1,
   ((C4_hash_shortcircuit
     (CopyTask.mk ["d"] ⟨9, 9, true⟩ true true (some "abc") (some "abc")
       ⟨9, 1, true⟩ (fun _ => false)) "abc" rfl rfl rfl rfl).2
     ⟨0, 0, 0, some ⟨[]⟩, 0⟩).2.2 rfl⟩

/-- C10: when hash verification is requested, the destination path exists,
and `calculate_hash` returns `None` for BOTH source and destination (e.g.
both unreadable), the two absent hashes compare equal, so the task is a
zero-byte, zero-attempt success; processing the result increments
`copied_files`, records zero bytes, and marks the path completed. -/
theorem C10_none_hashes_compare_equal (t : CopyTask)
    (hv : t.verify_hash = true) (he : t.destExists = true)
    (hsh : t.src.calculate_hash t.srcHashRead = none)
    (hdh : t.dstInfo.calculate_hash t.dstHashRead = none) :
    copy_single_file t = ⟨t.rp, true, 0, 0⟩ ∧
    (∀ st : EngineState,
      (processResult st (copy_single_file t)).copied_files =
        st.copied_files + 1 ∧
      (processResult st (copy_single_file t)).copied_size =
        st.copied_size + 0 ∧
      (st.state.isSome = true →
        (processResult st (copy_single_file t)).ledger_has t.rp = true)) := by
  have hsingle : copy_single_file t = ⟨t.rp, true, 0, 0⟩ := by
    unfold copy_single_file
    simp [hv, he, hsh, hdh]
  refine ⟨hsingle, fun st => ⟨?_, ?_, fun hst => ?_⟩⟩
  · rw [hsingle, processResult_copied]; simp
  · rw [hsingle, processResult_size]; simp
  · rw [hsingle, processResult_ledger_has]
    right
    exact ⟨by simpa using hst, rfl, rfl⟩

/-- Concrete instance of C10: the source file's stat failed (so its hash is
`None`) and the destination is unreadable (hash `None`); the task counts
as a success with zero bytes and the path is marked completed. -/
theorem C10_none_hashes_compare_equal_witness :
    (⟨0, 0, false⟩ : FileInfo).calculate_hash none = none ∧
    copy_single_file
      (CopyTask.mk ["u"] ⟨0, 0, false⟩ true true none none
        ⟨3, 3, true⟩ (fun _ => false)) = ⟨["u"], true, 0, 0⟩ ∧
    (processResult ⟨0, 0, 0, some ⟨[]⟩, 0⟩
      (copy_single_file
        (CopyTask.mk ["u"] ⟨0, 0, false⟩ true true none none
          ⟨3, 3, true⟩ (fun _ => false)))).ledger_has ["u"] = true :=
  ⟨rfl,
   (C10_none_hashes_compare_equal
     (CopyTask.mk ["u"] ⟨0, 0, false⟩ true true none none
       ⟨3, 3, true⟩ (fun _ => false)) rfl rfl rfl rfl).1,
   ((C10_none_hashes_compare_equal
     (CopyTask.mk ["u"] ⟨0, 0, false⟩ true true none none
       ⟨3, 3, true⟩ (fun _ => false)) rfl rfl rfl rfl).2
     ⟨0, 0, 0, some ⟨[]⟩, 0⟩).2.2 rfl⟩

/-! Helper lemmas for the concurrent/sequential comparison and the save
cadence. -/

/-- Both execution branches leave the same ledger. -/
theorem runCopy_ledger_has (parallel : Bool) (st : EngineState)
    (rs : List CopyResult) (p : PathParts) :
    (runCopy parallel st rs).ledger_has p = (runSeq st rs).ledger_has p := by
  unfold runCopy
  split
  · have h := (runConc_eq_runSeq_counters st rs).2.2.2
    simp [EngineState.ledger_has, h]
  · rfl

/-- Counters of the concurrent step agree with the shared handler. -/
theorem concStep_copied (st : EngineState) (r : CopyResult) :
    (concStep st r).copied_files = (processResult st r).copied_files := by
  simp only [concStep]
  split <;> rfl

/-- Ledger of the concurrent step agrees with the shared handler. -/
theorem concStep_state (st : EngineState) (r : CopyResult) :
    (concStep st r).state = (processResult st r).state := by
  simp only [concStep]
  split <;> rfl

/-- Save bookkeeping of the concurrent step: one save exactly when the run
resumes and the copied counter is a multiple of 100 after the completion. -/
theorem concStep_saves (st : EngineState) (r : CopyResult) :
    (concStep st r).saves = (processResult st r).saves +
      (if (processResult st r).state.isSome ∧
          (processResult st r).copied_files % 100 = 0 then 1 else 0) := by
  simp only [concStep]
  split
  · next h =>
    simp only [Bool.and_eq_true, beq_iff_eq] at h
    rw [if_pos ⟨h.1, h.2⟩]
  · next h =>
    simp only [Bool.and_eq_true, beq_iff_eq, not_and] at h
    rw [if_neg]
    · rfl
    · rintro ⟨h1, h2⟩
      exact h h1 h2

/-- Save count of the concurrent loop over all-successful results: the
number of completions at which the copied counter crosses a multiple of
100. -/
theorem runConc_saves_all_success (rs : List CopyResult) (st : EngineState)
    (hall : ∀ r ∈ rs, r.success = true) (hst : st.state.isSome = true) :
    (runConc st rs).saves =
      st.saves + ((st.copied_files + rs.length) / 100 -
        st.copied_files / 100) := by
  induction rs generalizing st with
  | nil => simp [runConc]
  | cons r rest ih =>
    have hr : r.success = true := hall r (by simp)
    simp only [runConc, List.foldl_cons] at *
    have hstep : (concStep st r).state.isSome = true := by
      rw [concStep_state, processResult_state_isSome]; exact hst
    rw [ih (concStep st r) (fun r' hr' => hall r' (by simp [hr'])) hstep]
    rw [concStep_saves, concStep_copied, processResult_copied,
      processResult_saves, processResult_state_isSome]
    simp only [hr, if_true, hst, true_and, List.length_cons]
    have harith : st.copied_files + 1 + rest.length =
        st.copied_files + (rest.length + 1) := by omega
    rw [harith]
    by_cases hd : (st.copied_files + 1) % 100 = 0
    · rw [if_pos hd]
      omega
    · rw [if_neg hd]
      omega

/-! Claim theorems C5, C8, C9. -/

/-- C5: within a run the ledger only grows — a path completed at the start
is completed at the end; a path completed at the end was completed at the
start or had a successful task; task success comes only from the hash
short-circuit or a `copy_file_with_retry` success (which includes the
post-copy size verification); and with distinct task paths, a path whose
task failed and that was not restored by `load` is absent from the final
set. Both execution modes are covered through `runCopy`. -/
theorem C5_ledger_invariant (parallel : Bool) (st : EngineState)
    (tasks : List CopyTask) (p : PathParts) :
    (st.ledger_has p = true →
      (runCopy parallel st (tasks.map copy_single_file)).ledger_has p = true) ∧
    ((runCopy parallel st (tasks.map copy_single_file)).ledger_has p = true →
      st.ledger_has p = true ∨
        ∃ t ∈ tasks, t.rp = p ∧ (copy_single_file t).success = true) ∧
    (∀ t : CopyTask, (copy_single_file t).success = true →
      (t.verify_hash = true ∧ t.destExists = true ∧
        t.src.calculate_hash t.srcHashRead =
          t.dstInfo.calculate_hash t.dstHashRead) ∨
      (copy_file_with_retry t.attemptOk 3).1 = true) ∧
    (∀ t ∈ tasks, (copy_single_file t).success = false →
      st.ledger_has t.rp = false → (tasks.map CopyTask.rp).Nodup →
      (runCopy parallel st (tasks.map copy_single_file)).ledger_has t.rp
        = false) := by
  refine ⟨?_, ?_, fun t => copy_single_file_success_cases t, ?_⟩
  · intro h
    rw [runCopy_ledger_has]
    exact (runSeq_ledger_has st _ p).mpr (Or.inl h)
  · intro h
    rw [runCopy_ledger_has] at h
    rcases (runSeq_ledger_has st _ p).mp h with h | ⟨-, r, hr, h1, h2⟩
    · exact Or.inl h
    · obtain ⟨t, ht, rfl⟩ := List.mem_map.1 hr
      exact Or.inr ⟨t, ht, by rw [← copy_single_file_rp t]; exact h2, h1⟩
  · intro t ht hfail hst hnodup
    rw [runCopy_ledger_has]
    by_contra hcontra
    rw [Bool.not_eq_false] at hcontra
    rcases (runSeq_ledger_has st _ t.rp).mp hcontra with h | ⟨-, r, hr, h1, h2⟩
    · rw [hst] at h
      exact Bool.false_ne_true h
    · obtain ⟨t', ht', rfl⟩ := List.mem_map.1 hr
      rw [copy_single_file_rp] at h2
      have : t' = t :=
        List.inj_on_of_nodup_map hnodup ht' ht h2
      rw [this, hfail] at h1
      exact Bool.false_ne_true h1

/-- Concrete instance of C5: one succeeding and one failing task over a
ledger restored with `old`: `old` stays completed, the succeeding path is
added, and the failing path `m` is not in the final set. -/
theorem C5_ledger_invariant_witness :
    (EngineState.mk 0 0 0 (some ⟨[["old"]]⟩) 0).ledger_has ["old"] = true ∧
    (runCopy true (EngineState.mk 0 0 0 (some ⟨[["old"]]⟩) 0)
      ([CopyTask.mk ["n"] ⟨4, 4, true⟩ false false none none ⟨0, 0, false⟩
          (fun _ => true),
        CopyTask.mk ["m"] ⟨6, 6, true⟩ false false none none ⟨0, 0, false⟩
          (fun _ => false)].map copy_single_file)).ledger_has ["old"]
      = true ∧
    (runCopy true (EngineState.mk 0 0 0 (some ⟨[["old"]]⟩) 0)
      ([CopyTask.mk ["n"] ⟨4, 4, true⟩ false false none none ⟨0, 0, false⟩
          (fun _ => true),
        CopyTask.mk ["m"] ⟨6, 6, true⟩ false false none none ⟨0, 0, false⟩
          (fun _ => false)].map copy_single_file)).ledger_has ["m"]
      = false :=
  ⟨by decide,
   (C5_ledger_invariant true (EngineState.mk 0 0 0 (some ⟨[["old"]]⟩) 0)
     [CopyTask.mk ["n"] ⟨4, 4, true⟩ false false none none ⟨0, 0, false⟩
        (fun _ => true),
      CopyTask.mk ["m"] ⟨6, 6, true⟩ false false none none ⟨0, 0, false⟩
        (fun _ => false)] ["old"]).1 (by decide),
   (C5_ledger_invariant true (EngineState.mk 0 0 0 (some ⟨[["old"]]⟩) 0)
     [CopyTask.mk ["n"] ⟨4, 4, true⟩ false false none none ⟨0, 0, false⟩
        (fun _ => true),
      CopyTask.mk ["m"] ⟨6, 6, true⟩ false false none none ⟨0, 0, false⟩
        (fun _ => false)] ["m"]).2.2.2
     (CopyTask.mk ["m"] ⟨6, 6, true⟩ false false none none ⟨0, 0, false⟩
       (fun _ => false)) (by simp) (by decide) (by decide) (by decide)⟩

/-- C8 fails on the code: in SEQUENTIAL mode there is no periodic save at
all. Claimed behaviour on 101 successful completions would persist the
ledger after the 100th successful completion and once more after the final
(101st) task — at least twice; the sequential engine performs exactly one
save in total. -/
theorem C8_counterexample :
    (finalSave (runSeq ⟨0, 0, 0, some ⟨[]⟩, 0⟩ c8Results)).saves = 1 ∧
    ¬ 2 ≤ (finalSave (runSeq ⟨0, 0, 0, some ⟨[]⟩, 0⟩ c8Results)).saves := by
  have h1 : (runSeq (⟨0, 0, 0, some ⟨[]⟩, 0⟩ : EngineState) c8Results).saves
      = 0 := by
    rw [runSeq_saves]
  have h2 : (runSeq (⟨0, 0, 0, some ⟨[]⟩, 0⟩ : EngineState)
      c8Results).state.isSome = true := by
    rw [runSeq_state_isSome]
    rfl
  rw [finalSave, if_pos h2, h1]
  simp

/-- C8 amended: the every-100-completions persistence exists only in the
CONCURRENT branch: there, with resume enabled and successful completions,
the in-loop save count over `n` completions is `n / 100` (a save fires
exactly when the copied counter reaches a multiple of 100, in particular
after every 100th successful completion); the sequential branch performs no
in-loop save whatsoever; and both branches save once more after the final
task. -/
theorem C8_amended_periodic_saves (ledger : SyncState) :
    (∀ rs : List CopyResult, (∀ r ∈ rs, r.success = true) →
      (runConc ⟨0, 0, 0, some ledger, 0⟩ rs).saves = rs.length / 100) ∧
    (∀ rs : List CopyResult,
      (runSeq ⟨0, 0, 0, some ledger, 0⟩ rs).saves = 0) ∧
    (∀ st : EngineState, st.state.isSome = true →
      (finalSave st).saves = st.saves + 1) := by
  refine ⟨fun rs hall => ?_, fun rs => ?_, fun st hst => ?_⟩
  · rw [runConc_saves_all_success rs ⟨0, 0, 0, some ledger, 0⟩ hall rfl]
    simp
  · rw [runSeq_saves]
  · rw [finalSave, if_pos hst]

/-- Concrete instance of C8 (amended): 100 successful completions trigger
exactly one in-loop save concurrently and none sequentially; the final save
adds one. -/
theorem C8_amended_periodic_saves_witness :
    (∀ r ∈ List.replicate 100 (CopyResult.mk ["a"] true 1 1),
      r.success = true) ∧
    (runConc ⟨0, 0, 0, some ⟨[]⟩, 0⟩
      (List.replicate 100 ⟨["a"], true, 1, 1⟩)).saves =
      (List.replicate 100 (CopyResult.mk ["a"] true 1 1)).length / 100 ∧
    (runSeq ⟨0, 0, 0, some ⟨[]⟩, 0⟩
      (List.replicate 100 ⟨["a"], true, 1, 1⟩)).saves = 0 ∧
    (finalSave ⟨0, 0, 0, some ⟨[]⟩, 5⟩).saves = 5 + 1 :=
  ⟨fun r hr => by rw [List.eq_of_mem_replicate hr],
   (C8_amended_periodic_saves ⟨[]⟩).1 _
     (fun r hr => by rw [List.eq_of_mem_replicate hr]),
   (C8_amended_periodic_saves ⟨[]⟩).2.1 _,
   (C8_amended_periodic_saves ⟨[]⟩).2.2 ⟨0, 0, 0, some ⟨[]⟩, 5⟩ rfl⟩

/-- C9: for any completion order that is a permutation of the plan's task
results — every interleaving the `as_completed` loop can observe — the
concurrent engine ends with the same `copied_files`, `failed_files` and
`copied_size` counters and the same final ledger set as the sequential
engine over the same plan (the worker pool width `MAX_WORKERS = 4` only
influences which interleavings occur, all of which are covered here). -/
theorem C9_concurrent_matches_sequential (st : EngineState)
    (tasks : List CopyTask) (order : List CopyResult)
    (h : order.Perm (tasks.map copy_single_file)) :
    (runConc st order).copied_files =
      (runSeq st (tasks.map copy_single_file)).copied_files ∧
    (runConc st order).failed_files =
      (runSeq st (tasks.map copy_single_file)).failed_files ∧
    (runConc st order).copied_size =
      (runSeq st (tasks.map copy_single_file)).copied_size ∧
    (∀ p, (runConc st order).ledger_has p =
      (runSeq st (tasks.map copy_single_file)).ledger_has p) := by
  have hc := runConc_eq_runSeq_counters st order
  refine ⟨?_, ?_, ?_, ?_⟩
  · rw [hc.1, runSeq_copied, runSeq_copied, h.countP_eq]
  · rw [hc.2.1, runSeq_failed, runSeq_failed, h.countP_eq]
  · rw [hc.2.2.1, runSeq_size, runSeq_size,
      (((h.filter (fun r => r.success)).map (fun r => r.size))).sum_eq]
  · intro p
    have hl : (runConc st order).ledger_has p =
        (runSeq st order).ledger_has p := by
      simp [EngineState.ledger_has, hc.2.2.2]
    rw [hl]
    have h1 := runSeq_ledger_has st order p
    have h2 := runSeq_ledger_has st (tasks.map copy_single_file) p
    have hiff : ((runSeq st order).ledger_has p = true) ↔
        ((runSeq st (tasks.map copy_single_file)).ledger_has p = true) := by
      rw [h1, h2]
      constructor
      · rintro (hx | ⟨hs, r, hr, hh⟩)
        · exact Or.inl hx
        · exact Or.inr ⟨hs, r, h.mem_iff.mp hr, hh⟩
      · rintro (hx | ⟨hs, r, hr, hh⟩)
        · exact Or.inl hx
        · exact Or.inr ⟨hs, r, h.mem_iff.mpr hr, hh⟩
    cases hb1 : (runSeq st order).ledger_has p <;>
      cases hb2 : (runSeq st (tasks.map copy_single_file)).ledger_has p <;>
      simp_all

/-- Concrete instance of C9: a two-task plan (one success, one failure)
whose completions arrive in reversed order yields the same counters and the
same ledger as the sequential run. -/
theorem C9_concurrent_matches_sequential_witness :
    ([CopyResult.mk ["m"] false 0 3, CopyResult.mk ["n"] true 4 1].Perm
      ([CopyTask.mk ["n"] ⟨4, 4, true⟩ false false none none ⟨0, 0, false⟩
          (fun _ => true),
        CopyTask.mk ["m"] ⟨6, 6, true⟩ false false none none ⟨0, 0, false⟩
          (fun _ => false)].map copy_single_file)) ∧
    (runConc ⟨0, 0, 0, some ⟨[]⟩, 0⟩
        [CopyResult.mk ["m"] false 0 3, CopyResult.mk ["n"] true 4 1]).copied_files =
      (runSeq ⟨0, 0, 0, some ⟨[]⟩, 0⟩
        ([CopyTask.mk ["n"] ⟨4, 4, true⟩ false false none none ⟨0, 0, false⟩
            (fun _ => true),
          CopyTask.mk ["m"] ⟨6, 6, true⟩ false false none none ⟨0, 0, false⟩
            (fun _ => false)].map copy_single_file)).copied_files ∧
    (∀ p, (runConc ⟨0, 0, 0, some ⟨[]⟩, 0⟩
        [CopyResult.mk ["m"] false 0 3, CopyResult.mk ["n"] true 4 1]).ledger_has p =
      (runSeq ⟨0, 0, 0, some ⟨[]⟩, 0⟩
        ([CopyTask.mk ["n"] ⟨4, 4, true⟩ false false none none ⟨0, 0, false⟩
            (fun _ => true),
          CopyTask.mk ["m"] ⟨6, 6, true⟩ false false none none ⟨0, 0, false⟩
            (fun _ => false)].map copy_single_file)).ledger_has p) :=
  ⟨by decide,
   (C9_concurrent_matches_sequential ⟨0, 0, 0, some ⟨[]⟩, 0⟩
     [CopyTask.mk ["n"] ⟨4, 4, true⟩ false false none none ⟨0, 0, false⟩
        (fun _ => true),
      CopyTask.mk ["m"] ⟨6, 6, true⟩ false false none none ⟨0, 0, false⟩
        (fun _ => false)]
     [CopyResult.mk ["m"] false 0 3, CopyResult.mk ["n"] true 4 1]
     (by decide)).1,
   (C9_concurrent_matches_sequential ⟨0, 0, 0, some ⟨[]⟩, 0⟩
     [CopyTask.mk ["n"] ⟨4, 4, true⟩ false false none none ⟨0, 0, false⟩
        (fun _ => true),
      CopyTask.mk ["m"] ⟨6, 6, true⟩ false false none none ⟨0, 0, false⟩
        (fun _ => false)]
     [CopyResult.mk ["m"] false 0 3, CopyResult.mk ["n"] true 4 1]
     (by decide)).2.2.2⟩

/-! Helper lemmas for the scanner exclusion property. -/

/-- Unfolding of `should_exclude parts = false` into its two denylist
conditions. -/
theorem should_exclude_eq_false_iff (parts : PathParts) :
    should_exclude parts = false ↔
      (∀ part ∈ parts, EXCLUDED_FOLDERS.contains part = false) ∧
      EXCLUDED_EXTENSIONS.contains
        (strToLower (pathSuffix (parts.getLastD ""))) = false := by
  rw [should_exclude, Bool.or_eq_false_iff]
  constructor
  · rintro ⟨h1, h2⟩
    refine ⟨fun part hpart => ?_, h2⟩
    rw [List.any_eq_false] at h1
    have := h1 part hpart
    simpa using this
  · rintro ⟨h1, h2⟩
    refine ⟨?_, h2⟩
    rw [List.any_eq_false]
    intro part hpart
    simpa using h1 part hpart

/-- Last component of an appended path: determined by the (nonempty) second
part. -/
theorem getLastD_append_right (l₁ l₂ : PathParts) (h : l₂ ≠ []) (d : String) :
    (l₁ ++ l₂).getLastD d = l₂.getLastD d := by
  rw [List.getLastD_eq_getLast?, List.getLastD_eq_getLast?,
    List.getLast?_append_of_ne_nil l₁ h]

mutual
/-- Soundness of one walk step: every statted path passed the exclusion
filter, and every result entry has a statted, exclusion-free full path and
a nonempty relative path. -/
theorem scanEntry_sound (root rel : PathParts) (e : FSEntry) :
    (∀ p ∈ (scanEntry root rel e).statted, should_exclude p = false) ∧
    (∀ pr ∈ (scanEntry root rel e).result,
      should_exclude (root ++ pr.1) = false ∧ pr.1 ≠ []) := by
  cases e with
  | file name size mtime statOk =>
    have hassoc : root ++ rel ++ [name] = root ++ (rel ++ [name]) :=
      List.append_assoc root rel [name]
    by_cases h : should_exclude (root ++ (rel ++ [name])) = true
    · have h2 : should_exclude (root ++ rel ++ [name]) = true := by
        rw [hassoc]; exact h
      constructor <;> intro x hx <;> simp [scanEntry, h, h2] at hx
    · rw [Bool.not_eq_true] at h
      have h2 : should_exclude (root ++ rel ++ [name]) = false := by
        rw [hassoc]; exact h
      constructor
      · intro p hp
        simp [scanEntry, h, h2] at hp
        rw [hp, ← hassoc, hassoc]
        exact h
      · intro pr hpr
        simp only [scanEntry, h2, Bool.false_eq_true, if_false] at hpr
        by_cases he : (mkFileInfo size mtime statOk).«exists» = true
        · simp only [he, if_true, List.mem_singleton] at hpr
          rw [hpr]
          refine ⟨?_, by simp⟩
          simpa using h
        · rw [Bool.not_eq_true] at he
          simp [he] at hpr
  | dir name children =>
    have hassoc : root ++ rel ++ [name] = root ++ (rel ++ [name]) :=
      List.append_assoc root rel [name]
    by_cases h : should_exclude (root ++ (rel ++ [name])) = true
    · have h2 : should_exclude (root ++ rel ++ [name]) = true := by
        rw [hassoc]; exact h
      constructor <;> intro x hx <;> simp [scanEntry, h, h2] at hx
    · rw [Bool.not_eq_true] at h
      have h2 : should_exclude (root ++ rel ++ [name]) = false := by
        rw [hassoc]; exact h
      have hrec := scanForest_sound root (rel ++ [name]) children
      constructor <;> intro x hx
      · refine hrec.1 x ?_
        simpa [scanEntry, h, h2] using hx
      · refine hrec.2 x ?_
        simpa [scanEntry, h, h2] using hx

/-- Soundness of the walk over a list of children. -/
theorem scanForest_sound (root rel : PathParts) (es : List FSEntry) :
    (∀ p ∈ (scanForest root rel es).statted, should_exclude p = false) ∧
    (∀ pr ∈ (scanForest root rel es).result,
      should_exclude (root ++ pr.1) = false ∧ pr.1 ≠ []) := by
  cases es with
  | nil => constructor <;> intro x hx <;> simp [scanForest] at hx
  | cons e es' =>
    have h1 := scanEntry_sound root rel e
    have h2 := scanForest_sound root rel es'
    constructor <;> intro x hx
    · rcases List.mem_append.1 (by simpa [scanForest, ScanOut.append] using hx)
        with hx' | hx'
      · exact h1.1 x hx'
      · exact h2.1 x hx'
    · rcases List.mem_append.1 (by simpa [scanForest, ScanOut.append] using hx)
        with hx' | hx'
      · exact h1.2 x hx'
      · exact h2.2 x hx'
end

/-- C6: a file recorded by `scan_drive_fast` never has a denylisted folder
name among its path components (drive root included) and never has a
denylisted extension (compared lowercased); moreover every path on which a
`FileInfo` stat was performed passed the exclusion filter — excluded
directories are pruned before descent, so files under them are never
statted. -/
theorem C6_scan_exclusion (root : PathParts) (tree : List FSEntry)
    (rp : PathParts) (info : FileInfo) (p : PathParts)
    (hres : (rp, info) ∈ (scan_drive_fast root tree).result)
    (hstat : p ∈ (scan_drive_fast root tree).statted) :
    ((root ++ rp).all (fun part => !EXCLUDED_FOLDERS.contains part) = true ∧
     EXCLUDED_EXTENSIONS.contains (strToLower (pathSuffix (rp.getLastD "")))
       = false) ∧
    (should_exclude p = false ∧
     p.all (fun part => !EXCLUDED_FOLDERS.contains part) = true) := by
  have hs := scanForest_sound root [] tree
  have hr := hs.2 (rp, info) hres
  have hp := hs.1 p hstat
  obtain ⟨hre, hne⟩ := hr
  have hiff := (should_exclude_eq_false_iff (root ++ rp)).mp hre
  have hpiff := (should_exclude_eq_false_iff p).mp hp
  refine ⟨⟨?_, ?_⟩, hp, ?_⟩
  · rw [List.all_eq_true]
    intro part hpart
    have := hiff.1 part hpart
    simpa using this
  · have hlast : (root ++ rp).getLastD "" = rp.getLastD "" :=
      getLastD_append_right root rp hne ""
    rw [← hlast]
    exact hiff.2
  · rw [List.all_eq_true]
    intro part hpart
    have := hpiff.1 part hpart
    simpa using this

/-- Concrete instance of C6: a drive with a regular file, a denylisted
`.tmp` file and a denylisted `Windows` directory: only the regular file is
recorded, and the recorded/statted paths satisfy the exclusion filter. -/
theorem C6_scan_exclusion_witness :
    ((["a.txt"], (⟨5, 7, true⟩ : FileInfo)) ∈
      (scan_drive_fast ["src"]
        [.file "a.txt" 5 7 true, .file "junk.TMP" 1 1 true,
         .dir "Windows" [.file "sys.txt" 2 2 true]]).result) ∧
    (["src", "a.txt"] ∈
      (scan_drive_fast ["src"]
        [.file "a.txt" 5 7 true, .file "junk.TMP" 1 1 true,
         .dir "Windows" [.file "sys.txt" 2 2 true]]).statted) ∧
    ((["src"] ++ ["a.txt"]).all
        (fun part => !EXCLUDED_FOLDERS.contains part) = true ∧
      EXCLUDED_EXTENSIONS.contains
        (strToLower (pathSuffix ((["a.txt"] : PathParts).getLastD "")))
        = false) ∧
    should_exclude ["src", "a.txt"] = false := by
  have e1 : (scan_drive_fast ["src"]
      [.file "a.txt" 5 7 true, .file "junk.TMP" 1 1 true,
       .dir "Windows" [.file "sys.txt" 2 2 true]]).result
      = [(["a.txt"], (⟨5, 7, true⟩ : FileInfo))] := rfl
  have e2 : (scan_drive_fast ["src"]
      [.file "a.txt" 5 7 true, .file "junk.TMP" 1 1 true,
       .dir "Windows" [.file "sys.txt" 2 2 true]]).statted
      = [["src", "a.txt"]] := rfl
  have hres : (["a.txt"], (⟨5, 7, true⟩ : FileInfo)) ∈
      (scan_drive_fast ["src"]
        [.file "a.txt" 5 7 true, .file "junk.TMP" 1 1 true,
         .dir "Windows" [.file "sys.txt" 2 2 true]]).result := by
    rw [e1]; exact List.Mem.head _
  have hstat : ["src", "a.txt"] ∈
      (scan_drive_fast ["src"]
        [.file "a.txt" 5 7 true, .file "junk.TMP" 1 1 true,
         .dir "Windows" [.file "sys.txt" 2 2 true]]).statted := by
    rw [e2]; exact List.Mem.head _
  have happ := C6_scan_exclusion ["src"]
    [.file "a.txt" 5 7 true, .file "junk.TMP" 1 1 true,
     .dir "Windows" [.file "sys.txt" 2 2 true]]
    ["a.txt"] ⟨5, 7, true⟩ ["src", "a.txt"] hres hstat
  exact ⟨hres, hstat, ⟨happ.1.1, happ.1.2⟩, happ.2.1⟩

end FileSync
